import Mathlib

/-!
Shallow embedding of `src/security/validator.py`: a guardrail engine that
decides whether a proposed tool call is permitted.  Python dictionaries
holding JSON-like data are modelled by the inductive `Json`; the module's
global `_recent_calls` dict is modelled by an association list threaded
through the functions; `time.time()` is an explicit rational parameter.
Python exception control flow is modelled with `Except Unit`.
-/

/-- JSON-like values as stored in a tool call's `args` mapping.
Numbers are modelled as integers. -/
inductive Json where
  | null : Json
  | jb (b : Bool) : Json
  | jn (n : Int) : Json
  | js (s : String) : Json
  | jarr (xs : List Json) : Json
  | jobj (kvs : List (String × Json)) : Json
deriving Repr

/-- Escape a string the way `json.dumps` does for the characters that can
occur in the inputs we model: backslash and double quote. -/
def jesc (s : String) : String :=
  String.mk (s.data.foldr
    (fun c acc =>
      if c = '"' then '\\' :: '"' :: acc
      else if c = '\\' then '\\' :: '\\' :: acc
      else c :: acc) [])

/-- A JSON string literal: quotes around the escaped body. -/
def jstr (s : String) : String := "\"" ++ jesc s ++ "\""

/-- Key ordering used by `json.dumps(..., sort_keys=True)`: compare object
entries (key paired with already-serialized value) by their key string;
sorting compares keys only, so sorting entries and then serializing the
values (as CPython does) emits the same text as serializing the values
and then sorting the pairs (as below, to keep the recursion structural). -/
def keyLe2 (a b : String × String) : Prop := a.1 ≤ b.1

instance : DecidableRel keyLe2 := fun a b => inferInstanceAs (Decidable (a.1 ≤ b.1))

instance : IsTotal (String × String) keyLe2 := ⟨fun a b => le_total a.1 b.1⟩

instance : IsTrans (String × String) keyLe2 := ⟨fun _ _ _ h1 h2 => le_trans h1 h2⟩

/-- Render one sorted object entry as `"key": value`. -/
def entryGlue (e : String × String) : String := jstr e.1 ++ ": " ++ e.2

mutual
/-- `json.dumps(v, sort_keys=True)` with the default separators `", "` and
`": "`: object keys are emitted in sorted order. -/
def dumps : Json → String
  | .null => "null"
  | .jb b => if b then "true" else "false"
  | .jn n => toString n
  | .js s => jstr s
  | .jarr xs => "[" ++ String.intercalate ", " (dumpsList xs) ++ "]"
  | .jobj l =>
      "\x7b" ++
        String.intercalate ", " ((List.insertionSort keyLe2 (dumpsPairs l)).map entryGlue) ++
        "\x7d"

/-- Serialize each array element. -/
def dumpsList : List Json → List String
  | [] => []
  | x :: xs => dumps x :: dumpsList xs

/-- Pair each object key with its serialized value, insertion order. -/
def dumpsPairs : List (String × Json) → List (String × String)
  | [] => []
  | (k, v) :: es => (k, dumps v) :: dumpsPairs es
end

mutual
/-- `json.dumps(v)` without `sort_keys`: object keys are emitted in
insertion order (used by the intent-alignment heuristic). -/
def dumpsRaw : Json → String
  | .null => "null"
  | .jb b => if b then "true" else "false"
  | .jn n => toString n
  | .js s => jstr s
  | .jarr xs => "[" ++ String.intercalate ", " (dumpsRawList xs) ++ "]"
  | .jobj l => "\x7b" ++ String.intercalate ", " (dumpsRawEntries l) ++ "\x7d"

/-- Serialize each array element, insertion order. -/
def dumpsRawList : List Json → List String
  | [] => []
  | x :: xs => dumpsRaw x :: dumpsRawList xs

/-- Serialize each `key: value` entry of an object, insertion order. -/
def dumpsRawEntries : List (String × Json) → List String
  | [] => []
  | (k, v) :: es => (jstr k ++ ": " ++ dumpsRaw v) :: dumpsRawEntries es
end

/-- The tool policy document (`tool_policy.json` once loaded, or the built-in
fallback).  Each field may be absent, in which case the `.get(key, default)`
calls in the source supply a default.  A role's config is collapsed to its
`allowed_tools` list (an absent `allowed_tools` key behaves exactly like an
empty list in `is_tool_allowed_for_role`, since both fail `if not allowed`). -/
structure Policy where
  roles : List (String × List String)
  default_role : Option String
  duplicate_window_seconds : Option ℚ

/-- The built-in fallback policy from `_load_policy`'s except branch. -/
def fallbackPolicy : Policy := ⟨[], some "researcher", some 300⟩

/-- A Python value reachable from the request-scoped configuration object:
either a string or a dict.  Other Python values the engine could meet there
behave, for the operations the source performs on them (`.get`, truthiness),
like one of these two. -/
inductive CfgVal where
  | vstr (s : String) : CfgVal
  | vdict (entries : List (String × CfgVal)) : CfgVal

/-- Python truthiness of a configuration value: empty string and empty dict
are falsy. -/
def pyTruthy : CfgVal → Bool
  | .vstr s => !(s == "")
  | .vdict l => !l.isEmpty

/-- Truthiness of an optional value (`None` is falsy). -/
def pyTruthyO : Option CfgVal → Bool
  | none => false
  | some v => pyTruthy v

/-- `v.get(k)`: succeeds with the looked-up value (or `None`) when `v` is a
dict, raises `AttributeError` when it is not. -/
def dictGet : CfgVal → String → Except Unit (Option CfgVal)
  | .vdict l, k => .ok (l.lookup k)
  | .vstr _, _ => .error ()

/-- `v.get(k, d)`: like `dictGet` but with an explicit default. -/
def dictGetD (v : CfgVal) (k : String) (d : CfgVal) : Except Unit CfgVal :=
  match dictGet v k with
  | .ok r => .ok (r.getD d)
  | .error e => .error e

/-- The body of `get_role_from_config`'s `try` block, with each raising
operation made explicit: returns the value of
`cfg.get("role") or config.get("metadata", {}).get("role")` (as an optional
value), or an error where Python would raise. -/
def roleLookupBody (config : Option CfgVal) : Except Unit (Option CfgVal) :=
  -- cfg = config.get("configurable", {}) if config else {}
  let cfgE : Except Unit CfgVal :=
    if pyTruthyO config then
      match config with
      | some c => dictGetD c "configurable" (.vdict [])
      | none => .error ()
    else .ok (.vdict [])
  match cfgE with
  | .error e => .error e
  | .ok cfg =>
    -- role = cfg.get("role") or config.get("metadata", {}).get("role")
    match dictGet cfg "role" with
    | .error e => .error e
    | .ok r1 =>
      if pyTruthyO r1 then .ok r1
      else
        match config with
        | none => .error ()
        | some c =>
          match dictGetD c "metadata" (.vdict []) with
          | .error e => .error e
          | .ok md => dictGet md "role"

/-- `get_role_from_config`: try `configurable.role`, then `metadata.role`,
else the policy's default role; every exception in the `try` block falls
through to the default.  Totality of this definition embeds the fact that
the Python function never lets an exception escape. -/
def get_role_from_config (config : Option CfgVal) (p : Policy) : CfgVal :=
  match roleLookupBody config with
  | .ok (some v) => if pyTruthy v then v else .vstr (p.default_role.getD "researcher")
  | _ => .vstr (p.default_role.getD "researcher")

/-- A tool descriptor as probed by `is_tool_name`: a falsy object, a truthy
dict with an optional `"name"` key, or another truthy object with an
optional `name` attribute (an attribute holding a falsy value is modelled
as absent, matching the `or ""` in the source). -/
inductive ToolDesc where
  | falsy : ToolDesc
  | dictT (nameKey : Option String) : ToolDesc
  | objT (nameAttr : Option String) : ToolDesc

/-- `is_tool_name`: extract a tool name from a descriptor, `""` on failure. -/
def is_tool_name : ToolDesc → String
  | .falsy => ""
  | .dictT n => n.getD ""
  | .objT n => n.getD ""

/-- The allow-list the policy associates to a role:
`roles.get(role, {}).get("allowed_tools", [])`. -/
def allowedOf (p : Policy) (role : String) : List String :=
  (p.roles.lookup role).getD []

/-- `is_tool_allowed_for_role`. -/
def is_tool_allowed_for_role (role : String) (tool_name : String) (p : Policy) : Bool :=
  let allowed := allowedOf p role
  if allowed.isEmpty then false
  else if allowed.contains "*" then true
  else allowed.contains tool_name

/-- `roles.get(role)` requires a hashable key: a string role succeeds, a
dict-valued role raises `TypeError`. -/
def roleStr : CfgVal → Except Unit String
  | .vstr s => .ok s
  | .vdict _ => .error ()

/-- The loop body of `filter_tools_by_role`, with the resolved role fixed. -/
def filterToolsGo (role : CfgVal) (p : Policy) : List ToolDesc → Except Unit (List ToolDesc)
  | [] => .ok []
  | t :: ts =>
    let name := is_tool_name t
    if name == "" then filterToolsGo role p ts
    else
      match roleStr role with
      | .error e => .error e
      | .ok r =>
        match filterToolsGo role p ts with
        | .error e => .error e
        | .ok rest => .ok (if is_tool_allowed_for_role r name p then t :: rest else rest)

/-- `filter_tools_by_role`. -/
def filter_tools_by_role (config : Option CfgVal) (tools : List ToolDesc) (p : Policy) :
    Except Unit (List ToolDesc) :=
  filterToolsGo (get_role_from_config config p) p tools

/-- A dict-shaped tool call: an optional `"name"` key (restricted to string
values) and an optional `"args"` key.  A non-dict tool call object is
represented at the call sites as `none : Option ToolCall`. -/
structure ToolCall where
  nameKey : Option String
  argsKey : Option Json

/-- `tool_call.get("args", {})`. -/
def ToolCall.argsD (c : ToolCall) : Json := c.argsKey.getD (.jobj [])

/-- `_call_fingerprint`: the tool name, a colon, and the sorted-key JSON
serialization of the args (`json.dumps(args, sort_keys=True)` never fails
on the JSON-like values modelled here, so the `except` branch is dead). -/
def call_fingerprint (c : ToolCall) : String :=
  (c.nameKey.getD "") ++ ":" ++ dumps c.argsD

/-- The module-level `_recent_calls` dict: fingerprint to last-seen time. -/
abbrev Table := List (String × ℚ)

/-- Python dict assignment `d[k] = v`: replace in place, else append. -/
def tset : Table → String → ℚ → Table
  | [], k, v => [(k, v)]
  | (k', v') :: rest, k, v =>
    if k' == k then (k, v) :: rest else (k', v') :: tset rest k v

/-- Lookup in the table, `_recent_calls.get(fp)`. -/
def tget (t : Table) (k : String) : Option ℚ := List.lookup k t

/-- The read half of `is_duplicate_call`: `last = _recent_calls.get(fp)`
followed by `if last and (now - last) < window` (note the Python
truthiness: a stored `0.0` behaves like an absent entry). -/
def dupRead (t : Table) (fp : String) (now w : ℚ) : Bool :=
  match tget t fp with
  | some last => decide (¬ last = 0 ∧ now - last < w)
  | none => false

/-- The write half of `is_duplicate_call`: record `now` under the
fingerprint, then, if the table has grown past 1000 entries, drop every
entry strictly older than `now - window`. -/
def dupCommit (t : Table) (fp : String) (now w : ℚ) : Table :=
  let t1 := tset t fp now
  if t1.length > 1000 then t1.filter (fun kv => decide (¬ kv.2 < now - w)) else t1

/-- `is_duplicate_call`, with `time.time()` passed in as `now` and the
shared table threaded explicitly: returns the reported flag and the table
after the call. -/
def is_duplicate_call (c : ToolCall) (p : Policy) (now : ℚ) (t : Table) : Bool × Table :=
  let fp := call_fingerprint c
  let w := p.duplicate_window_seconds.getD 300
  if dupRead t fp now w then (true, t) else (false, dupCommit t fp now w)

/-- A conversation message as probed by the alignment heuristic: only an
optional textual `content` attribute is ever read
(`hasattr(m, "content")` and `str(m.content)`). -/
structure Msg where
  contentAttr : Option String

/-- `" ".join([str(m.content) for m in messages if hasattr(m, "content")])`. -/
def contentJoin (ms : List Msg) : String :=
  String.intercalate " " (ms.filterMap Msg.contentAttr)

/-- Python `str.split()` with no separator, character by character: split
on runs of whitespace, discarding empty pieces; `cur` holds the current
word reversed. -/
def pySplitGo : List Char → List Char → List String
  | [], cur => if cur.isEmpty then [] else [String.mk cur.reverse]
  | c :: cs, cur =>
    if c.isWhitespace then
      if cur.isEmpty then pySplitGo cs [] else String.mk cur.reverse :: pySplitGo cs []
    else pySplitGo cs (c :: cur)

/-- Python `str.split()`. -/
def pySplit (s : String) : List String := pySplitGo s.data []

/-- Python `str.lower()`, character by character. -/
def pyLower (s : String) : String := String.mk (s.data.map Char.toLower)

/-- Tokenize a string the way the alignment heuristic does: split on
whitespace, keep tokens longer than 3 characters, then case-fold. -/
def tokensOf (s : String) : List String :=
  ((pySplit s).filter (fun w => w.length > 3)).map pyLower

/-- The intent-alignment stage of `validate_tool_call` (lines 154-166):
`true` means the call is flagged as unrelated to the user's intent.  The
stage runs only when `messages` is a non-empty list; the serialized args
use plain `json.dumps` (insertion order).  No operation in the `try` block
can fail on the values modelled here, so the `except: pass` branch is
dead. -/
def alignmentFlags (messages : Option (List Msg)) (args : Json) : Bool :=
  match messages with
  | none => false
  | some ms =>
    if ms.isEmpty then false
    else
      let user_tokens := tokensOf (contentJoin ms)
      let arg_tokens := tokensOf (dumpsRaw args)
      !user_tokens.isEmpty && !arg_tokens.isEmpty &&
        user_tokens.all (fun u => !arg_tokens.contains u)

/-- `validate_tool_call`: the ordered short-circuit chain.  The result is
`(allowed, reason)` plus the duplicate table after the call; `.error ()`
marks the one uncaught exception path (a dict-valued resolved role passed
to `roles.get`).  The `except` branch around `is_duplicate_call`
("Duplicate check failed") is unreachable in this model because the
embedded duplicate check is total. -/
def validate_tool_call (config : Option CfgVal) (tc : Option ToolCall)
    (messages : Option (List Msg)) (phase : String) (p : Policy) (t : Table) (now : ℚ) :
    Except Unit ((Bool × String) × Table) :=
  match tc with
  | none => .ok ((false, "Malformed tool_call"), t)
  | some c =>
    match c.nameKey with
    | none => .ok ((false, "Malformed tool_call"), t)
    | some name =>
      match roleStr (get_role_from_config config p) with
      | .error e => .error e
      | .ok role =>
        if !(is_tool_allowed_for_role role name p) then
          .ok ((false, "Tool '" ++ name ++ "' not allowed for role '" ++ role ++ "'"), t)
        else if phase == "clarify" then
          .ok ((false, "Tools prohibited during clarification phase"), t)
        else if phase == "research" && !(name == "ConductResearch" || name == "ResearchComplete") then
          .ok ((false, "Tool '" ++ name ++ "' not allowed during research orchestration"), t)
        else
          match is_duplicate_call c p now t with
          | (true, t1) => .ok ((false, "Duplicate tool call suppressed"), t1)
          | (false, t1) =>
            if alignmentFlags messages c.argsD then
              .ok ((false, "Tool call appears unrelated to user intent"), t1)
            else
              .ok ((true, "allowed"), t1)

mutual
/-- Semantic identity of JSON values: equal atoms, pointwise-equivalent
arrays, and objects carrying the same key/value pairs in any insertion
order (witnessed by a pointwise-equivalent reordering `l2mid`). -/
inductive SemEq : Json → Json → Prop where
  | null : SemEq .null .null
  | jb (b : Bool) : SemEq (.jb b) (.jb b)
  | jn (n : Int) : SemEq (.jn n) (.jn n)
  | js (s : String) : SemEq (.js s) (.js s)
  | jarr {xs ys : List Json} : SemEqList xs ys → SemEq (.jarr xs) (.jarr ys)
  | jobj {l1 l2 : List (String × Json)} (l2mid : List (String × Json)) :
      SemEqEntries l1 l2mid → l2mid.Perm l2 → SemEq (.jobj l1) (.jobj l2)

/-- Pointwise semantic identity of two lists of values. -/
inductive SemEqList : List Json → List Json → Prop where
  | nil : SemEqList [] []
  | cons {x y xs ys} : SemEq x y → SemEqList xs ys → SemEqList (x :: xs) (y :: ys)

/-- Pointwise identity of object entries: equal keys, equivalent values. -/
inductive SemEqEntries : List (String × Json) → List (String × Json) → Prop where
  | nil : SemEqEntries [] []
  | cons {k v v' l l'} : SemEq v v' → SemEqEntries l l' →
      SemEqEntries ((k, v) :: l) ((k, v') :: l')
end

/-- Well-formed JSON value as produced from a Python dict: every object's
keys are distinct (Python dicts cannot hold duplicate keys). -/
inductive WFJson : Json → Prop where
  | null : WFJson .null
  | jb (b : Bool) : WFJson (.jb b)
  | jn (n : Int) : WFJson (.jn n)
  | js (s : String) : WFJson (.js s)
  | jarr {xs : List Json} : (∀ x ∈ xs, WFJson x) → WFJson (.jarr xs)
  | jobj {l : List (String × Json)} : (l.map Prod.fst).Nodup →
      (∀ e ∈ l, WFJson e.2) → WFJson (.jobj l)

/-- An object entry reduced to its key and its serialized value. -/
def pairOf (e : String × Json) : String × String := (e.1, dumps e.2)

/-- Strict key order on reduced entries. -/
def keyLt2 (a b : String × String) : Prop := a.1 < b.1

/-- The check-then-set of `is_duplicate_call` decomposed into its two
halves and interleaved across two concurrent submissions of the same
fingerprint: both reads happen before either write (the schedule the
unsynchronized `_recent_calls` dict permits). -/
def racedDuplicateCheck (t : Table) (fp : String) (n1 n2 w : ℚ) : Bool × Bool × Table :=
  let b1 := dupRead t fp n1 w
  let b2 := dupRead t fp n2 w
  let t1 := if b1 then t else dupCommit t fp n1 w
  let t2 := if b2 then t1 else dupCommit t1 fp n2 w
  (b1, b2, t2)

theorem tget_tset_self (t : Table) (k : String) (v : ℚ) : tget (tset t k v) k = some v := by
  induction t with
  | nil => simp [tset, tget, List.lookup]
  | cons hd rest ih =>
    obtain ⟨k', v'⟩ := hd
    by_cases h : k' = k
    · simp [tset, tget, List.lookup, h]
    · have hb : (k' == k) = false := by simpa using h
      have hb2 : (k == k') = false := by simpa using Ne.symm h
      simp only [tset, hb, if_false]
      simpa [tget, List.lookup, hb2] using ih

theorem tget_tset_ne (t : Table) (k k' : String) (v : ℚ) (h : k' ≠ k) :
    tget (tset t k v) k' = tget t k' := by
  have hbk : (k' == k) = false := by simpa using h
  induction t with
  | nil => simp [tset, tget, List.lookup, hbk]
  | cons hd rest ih =>
    obtain ⟨k0, v0⟩ := hd
    by_cases h0 : k0 = k
    · subst h0
      simp [tset, tget, List.lookup, hbk]
    · have hb : (k0 == k) = false := by simpa using h0
      simp only [tset, hb, if_false]
      by_cases h1 : k' = k0
      · simp [tget, List.lookup, h1]
      · have hb1 : (k' == k0) = false := by simpa using h1
        simpa [tget, List.lookup, hb1] using ih

theorem tget_filter_keep (t : Table) (k : String) (v : ℚ) (pred : String × ℚ → Bool)
    (h : tget t k = some v) (hp : pred (k, v) = true) :
    tget (t.filter pred) k = some v := by
  induction t with
  | nil => simp [tget, List.lookup] at h
  | cons hd rest ih =>
    obtain ⟨k', v'⟩ := hd
    by_cases hk : k = k'
    · subst hk
      simp only [tget, List.lookup, beq_self_eq_true, if_pos] at h
      obtain rfl : v' = v := by simpa using h
      simp [List.filter, hp, tget, List.lookup]
    · have hb : (k == k') = false := by simpa using hk
      simp only [tget, List.lookup, hb] at h
      cases hcase : pred (k', v') with
      | true => simpa [List.filter, hcase, tget, List.lookup, hb] using ih h
      | false => simpa [List.filter, hcase] using ih h

theorem mem_tset (t : Table) (k : String) (v : ℚ) (kv : String × ℚ) :
    kv ∈ tset t k v → kv = (k, v) ∨ kv ∈ t := by
  induction t with
  | nil => intro h; simpa [tset] using h
  | cons hd rest ih =>
    obtain ⟨k0, v0⟩ := hd
    intro h
    by_cases h0 : k0 = k
    · have hb : (k0 == k) = true := by simpa using h0
      simp only [tset, hb, if_true] at h
      rcases List.mem_cons.mp h with h1 | h1
      · exact Or.inl h1
      · exact Or.inr (List.mem_cons_of_mem _ h1)
    · have hb : (k0 == k) = false := by simpa using h0
      simp only [tset, hb, if_false] at h
      rcases List.mem_cons.mp h with h1 | h1
      · exact Or.inr (by simp [h1])
      · rcases ih h1 with h2 | h2
        · exact Or.inl h2
        · exact Or.inr (List.mem_cons_of_mem _ h2)

theorem tget_dupCommit_self (t : Table) (fp : String) (now w : ℚ) (hw : 0 ≤ w) :
    tget (dupCommit t fp now w) fp = some now := by
  unfold dupCommit
  by_cases hlen : (tset t fp now).length > 1000
  · simp only [hlen, if_pos]
    refine tget_filter_keep _ _ _ _ (tget_tset_self t fp now) ?_
    simp only [decide_eq_true_eq]
    intro hcontra
    nlinarith [hcontra]
  · simpa [hlen] using tget_tset_self t fp now

theorem dupCommit_pos (t : Table) (fp : String) (now w : ℚ)
    (ht : ∀ kv ∈ t, 0 < kv.2) (hn : 0 < now) :
    ∀ kv ∈ dupCommit t fp now w, 0 < kv.2 := by
  intro kv hkv
  have hmem : kv ∈ tset t fp now := by
    unfold dupCommit at hkv
    by_cases hlen : (tset t fp now).length > 1000
    · simp only [hlen, if_pos] at hkv
      exact List.mem_of_mem_filter hkv
    · simpa [hlen] using hkv
  rcases mem_tset t fp now kv hmem with h | h
  · subst h; exact hn
  · exact ht kv h

/-- C4: `is_tool_allowed_for_role` is false for every tool name when the
role is absent from the policy or its allow-list is empty; when the
allow-list contains the wildcard sentinel `"*"` it is true for every
non-empty tool name (including names never seen before); otherwise it is
true exactly when the tool name is a literal member of the allow-list,
with no partial or prefix matching. -/
theorem role_permission_characterization (p : Policy) (role tool_name : String) :
    (allowedOf p role = [] → is_tool_allowed_for_role role tool_name p = false) ∧
    (p.roles.lookup role = none → is_tool_allowed_for_role role tool_name p = false) ∧
    ("*" ∈ allowedOf p role → tool_name ≠ "" →
      is_tool_allowed_for_role role tool_name p = true) ∧
    ("*" ∉ allowedOf p role →
      (is_tool_allowed_for_role role tool_name p = true ↔ tool_name ∈ allowedOf p role)) := by
  refine ⟨?_, ?_, ?_, ?_⟩
  · intro h
    simp [is_tool_allowed_for_role, h]
  · intro h
    simp [is_tool_allowed_for_role, allowedOf, h]
  · intro hw _
    have hne : ¬ (allowedOf p role).isEmpty := by
      cases hl : allowedOf p role with
      | nil => rw [hl] at hw; simp at hw
      | cons a l => simp [hl]
    simp [is_tool_allowed_for_role, hne, List.elem_iff, hw]
  · intro hw
    by_cases he : (allowedOf p role).isEmpty
    · have : allowedOf p role = [] := by simpa [List.isEmpty_iff] using he
      simp [is_tool_allowed_for_role, he, this]
    · simp [is_tool_allowed_for_role, he, List.elem_iff, hw]

/-- Witness for C4: under a policy giving role `r` the wildcard list, a
never-seen tool name is allowed. -/
theorem role_permission_characterization_witness :
    is_tool_allowed_for_role "r" "BrandNewTool" ⟨[("r", ["*"])], none, none⟩ = true :=
  (role_permission_characterization ⟨[("r", ["*"])], none, none⟩ "r" "BrandNewTool").2.2.1
    (by decide) (by decide)

/-- C10: `filter_tools_by_role` keeps exactly the descriptors, in their
original order, whose extracted name is non-empty and allowed for the
resolved role; descriptors with no extractable name are silently dropped. -/
theorem filter_tools_characterization (config : Option CfgVal) (tools : List ToolDesc)
    (p : Policy) (r : String) (hr : roleStr (get_role_from_config config p) = .ok r) :
    filter_tools_by_role config tools p =
      .ok (tools.filter fun t =>
        !(is_tool_name t == "") && is_tool_allowed_for_role r (is_tool_name t) p) := by
  unfold filter_tools_by_role
  induction tools with
  | nil => simp [filterToolsGo]
  | cons t ts ih =>
    by_cases hn : is_tool_name t == ""
    · simp only [filterToolsGo, hn, if_pos, ih, List.filter_cons]
      simp [hn]
    · have hn' : (is_tool_name t == "") = false := by simpa using hn
      simp only [filterToolsGo, hn', Bool.false_eq_true, if_false, hr, ih, List.filter_cons]
      by_cases ha : is_tool_allowed_for_role r (is_tool_name t) p
      · simp [ha, hn']
      · have ha' : is_tool_allowed_for_role r (is_tool_name t) p = false := by simpa using ha
        simp [ha', hn']

/-- Witness for C10: a dict descriptor with an allowed name is kept, a
falsy descriptor is dropped. -/
theorem filter_tools_characterization_witness :
    filter_tools_by_role none [ToolDesc.dictT (some "ConductResearch"), ToolDesc.falsy]
      ⟨[("researcher", ["ConductResearch"])], some "researcher", some 300⟩ =
      .ok [ToolDesc.dictT (some "ConductResearch")] := by
  have h := filter_tools_characterization none
    [ToolDesc.dictT (some "ConductResearch"), ToolDesc.falsy]
    ⟨[("researcher", ["ConductResearch"])], some "researcher", some 300⟩ "researcher" rfl
  rw [h]
  rfl

/-- C8: `get_role_from_config` is total (every Python exception path in the
`try` block is internalized and lands on the default), never returns the
empty string as a role (whenever the policy's default role is non-empty,
which holds in particular for the built-in fallback `"researcher"`), reads
`configurable.role` first, then `metadata.role`, and on a null or
malformed configuration falls through to the policy's default role. -/
theorem role_resolution_total (p : Policy)
    (hd : p.default_role.getD "researcher" ≠ "") :
    (∀ config : Option CfgVal, get_role_from_config config p ≠ .vstr "") ∧
    (get_role_from_config none p = .vstr (p.default_role.getD "researcher")) ∧
    (∀ r md, r ≠ "" →
      get_role_from_config
        (some (.vdict [("configurable", .vdict [("role", .vstr r)]), ("metadata", md)])) p =
        .vstr r) ∧
    (∀ r, r ≠ "" →
      get_role_from_config (some (.vdict [("metadata", .vdict [("role", .vstr r)])])) p =
        .vstr r) ∧
    (∀ s, get_role_from_config (some (.vstr s)) p =
      .vstr (p.default_role.getD "researcher")) := by
  refine ⟨?_, ?_, ?_, ?_, ?_⟩
  · intro config
    unfold get_role_from_config
    cases hb : roleLookupBody config with
    | error e => simpa using hd
    | ok r =>
      cases r with
      | none => simpa using hd
      | some v =>
        cases hv : pyTruthy v with
        | false => simpa [hv] using hd
        | true =>
          simp only [hv, if_true]
          cases v with
          | vdict l => simp
          | vstr s =>
            intro hcontra
            injection hcontra with hs
            simp [pyTruthy, hs] at hv
  · rfl
  · intro r md hr
    have hb : (r == "") = false := by simpa using hr
    simp [get_role_from_config, roleLookupBody, pyTruthyO, pyTruthy, dictGetD, dictGet,
      List.lookup, hb]
  · intro r hr
    have hb : (r == "") = false := by simpa using hr
    simp [get_role_from_config, roleLookupBody, pyTruthyO, pyTruthy, dictGetD, dictGet,
      List.lookup, hb]
  · intro s
    cases hs : (s == "") with
    | true =>
      simp [get_role_from_config, roleLookupBody, pyTruthyO, pyTruthy, hs, dictGetD, dictGet]
    | false =>
      simp [get_role_from_config, roleLookupBody, pyTruthyO, pyTruthy, hs, dictGetD, dictGet]

/-- Witness for C8: with the fallback policy, a config carrying the role in
`configurable.role` resolves to it. -/
theorem role_resolution_total_witness :
    get_role_from_config
      (some (.vdict [("configurable", .vdict [("role", .vstr "admin")]),
                     ("metadata", .vdict [])])) fallbackPolicy = .vstr "admin" :=
  (role_resolution_total fallbackPolicy (by decide)).2.2.1 "admin" (.vdict []) (by decide)

/-- C1 (amended): every tool call that is not a dict or lacks the `"name"`
key is denied as "Malformed tool_call" before any other check — for every
configuration, policy, phase, message list and duplicate table, and the
duplicate table is left untouched.  (The shape check only tests key
presence: a call whose `"name"` key holds the empty string passes it and
proceeds to the later stages, see the counterexample.) -/
theorem malformed_shape_denied_first (config : Option CfgVal) (tc : Option ToolCall)
    (msgs : Option (List Msg)) (phase : String) (p : Policy) (t : Table) (now : ℚ)
    (h : tc = none ∨ ∃ c, tc = some c ∧ c.nameKey = none) :
    validate_tool_call config tc msgs phase p t now =
      .ok ((false, "Malformed tool_call"), t) := by
  rcases h with h | ⟨c, rfl, hc⟩
  · subst h; rfl
  · simp [validate_tool_call, hc]

/-- Witness for C1 (amended): a dict call with no `"name"` key is denied
malformed under a wildcard policy that would otherwise allow anything. -/
theorem malformed_shape_denied_first_witness :
    validate_tool_call none (some ⟨none, some (.jobj [])⟩) none "research"
      ⟨[("researcher", ["*"])], some "researcher", some 300⟩ [] 1 =
      .ok ((false, "Malformed tool_call"), []) :=
  malformed_shape_denied_first none (some ⟨none, some (.jobj [])⟩) none "research"
    ⟨[("researcher", ["*"])], some "researcher", some 300⟩ [] 1
    (Or.inr ⟨⟨none, some (.jobj [])⟩, rfl, rfl⟩)

/-- Counterexample to C1 as stated: a tool call whose `"name"` key is
present but holds the empty string is not treated as malformed — under a
wildcard policy it passes every stage and is allowed.  The claim says no
call with an empty name is ever allowed or denied for a later-stage
reason; this call has an empty name and is allowed. -/
theorem empty_name_call_allowed :
    validate_tool_call none (some ⟨some "", some (.jobj [])⟩) none "final"
      ⟨[("researcher", ["*"])], some "researcher", some 300⟩ [] 1 =
      .ok ((true, "allowed"), [(":\x7b\x7d", 1)]) := by
  rfl

/-- C5: in phase `clarify` every tool call is denied (whatever the role
and permission state resolve to, as long as the resolved role is usable as
a dict key); in phase `research` a call whose name is outside
`ConductResearch`/`ResearchComplete` is denied by the phase gate even when
its role permits it; any other phase value imposes no restriction: the
outcome is identical across all phases other than `clarify` and
`research`. -/
theorem phase_gating (config : Option CfgVal) (msgs : Option (List Msg)) (p : Policy)
    (t : Table) (now : ℚ) :
    (∀ tc res, validate_tool_call config tc msgs "clarify" p t now = .ok res →
      res.1.1 = false) ∧
    (∀ (c : ToolCall) (name r : String), c.nameKey = some name →
      roleStr (get_role_from_config config p) = .ok r →
      is_tool_allowed_for_role r name p = true →
      name ≠ "ConductResearch" → name ≠ "ResearchComplete" →
      validate_tool_call config (some c) msgs "research" p t now =
        .ok ((false, "Tool '" ++ name ++ "' not allowed during research orchestration"), t)) ∧
    (∀ tc ph1 ph2, ph1 ≠ "clarify" → ph1 ≠ "research" → ph2 ≠ "clarify" → ph2 ≠ "research" →
      validate_tool_call config tc msgs ph1 p t now =
        validate_tool_call config tc msgs ph2 p t now) := by
  refine ⟨?_, ?_, ?_⟩
  · intro tc res h
    cases tc with
    | none =>
      simp only [validate_tool_call, Except.ok.injEq] at h
      subst h; rfl
    | some c =>
      cases hn : c.nameKey with
      | none =>
        simp only [validate_tool_call, hn, Except.ok.injEq] at h
        subst h; rfl
      | some name =>
        cases hrs : roleStr (get_role_from_config config p) with
        | error e => simp [validate_tool_call, hn, hrs] at h
        | ok r =>
          by_cases ha : is_tool_allowed_for_role r name p
          · simp only [validate_tool_call, hn, hrs, ha, Bool.not_true, Bool.false_eq_true,
              if_false, if_pos, Except.ok.injEq, show ("clarify" == "clarify") = true from rfl] at h
            subst h; rfl
          · have ha' : is_tool_allowed_for_role r name p = false := by simpa using ha
            simp only [validate_tool_call, hn, hrs, ha', Bool.not_false, if_true,
              Except.ok.injEq] at h
            subst h; rfl
  · intro c name r hn hrs ha h1 h2
    have hb1 : (name == "ConductResearch") = false := by simpa using h1
    have hb2 : (name == "ResearchComplete") = false := by simpa using h2
    simp [validate_tool_call, hn, hrs, ha, hb1, hb2]
  · intro tc ph1 ph2 hc1 hr1 hc2 hr2
    have b1 : (ph1 == "clarify") = false := by simpa using hc1
    have b2 : (ph1 == "research") = false := by simpa using hr1
    have b3 : (ph2 == "clarify") = false := by simpa using hc2
    have b4 : (ph2 == "research") = false := by simpa using hr2
    cases tc with
    | none => rfl
    | some c =>
      cases hn : c.nameKey with
      | none => simp [validate_tool_call, hn]
      | some name =>
        cases hrs : roleStr (get_role_from_config config p) with
        | error e => simp [validate_tool_call, hn, hrs]
        | ok r => simp [validate_tool_call, hn, hrs, b1, b2, b3, b4]

/-- Witness for C5: a role-permitted tool named outside the research
allow-set is denied during research orchestration. -/
theorem phase_gating_witness :
    validate_tool_call none (some ⟨some "WriteFile", some (.jobj [])⟩) none "research"
      ⟨[("researcher", ["*"])], some "researcher", some 300⟩ [] 1 =
      .ok ((false, "Tool 'WriteFile' not allowed during research orchestration"), []) :=
  (phase_gating none none ⟨[("researcher", ["*"])], some "researcher", some 300⟩ [] 1).2.1
    ⟨some "WriteFile", some (.jobj [])⟩ "WriteFile" "researcher" rfl rfl rfl
    (by decide) (by decide)

theorem tget_mem (t : Table) (k : String) (v : ℚ) (h : tget t k = some v) : (k, v) ∈ t := by
  induction t with
  | nil => simp [tget, List.lookup] at h
  | cons hd rest ih =>
    obtain ⟨k0, v0⟩ := hd
    cases hb : (k == k0) with
    | true =>
      have hk : k = k0 := by simpa using hb
      simp only [tget, List.lookup, hb] at h
      obtain rfl : v0 = v := by simpa using h
      simp [hk]
    | false =>
      simp only [tget, List.lookup, hb] at h
      exact List.mem_cons_of_mem _ (ih h)

theorem is_duplicate_call_eq (c : ToolCall) (p : Policy) (now : ℚ) (t : Table) :
    is_duplicate_call c p now t =
      if dupRead t (call_fingerprint c) now (p.duplicate_window_seconds.getD 300) then (true, t)
      else (false, dupCommit t (call_fingerprint c) now (p.duplicate_window_seconds.getD 300)) :=
  rfl

/-- C2: on any table whose recorded times are positive (as they are in the
running process, where every recorded value is a previous `time.time()`),
`is_duplicate_call` reports a duplicate exactly when a last-seen time is
recorded for the call's fingerprint and `now` minus that time is strictly
below the window; a duplicate leaves the table (hence the anchoring
timestamp) untouched, and in every other case `now` is recorded as the new
last-seen time and not-duplicate is reported.  With a 300-second window,
the same call twice within 299 seconds yields (not-duplicate, duplicate),
and a third submission 301 seconds after the second yields not-duplicate. -/
theorem duplicate_window_semantics :
    (∀ (c : ToolCall) (p : Policy) (now : ℚ) (t : Table),
      (∀ kv ∈ t, 0 < kv.2) → 0 ≤ p.duplicate_window_seconds.getD 300 →
      ((is_duplicate_call c p now t).1 = true ↔
        ∃ last, tget t (call_fingerprint c) = some last ∧
          now - last < p.duplicate_window_seconds.getD 300) ∧
      ((is_duplicate_call c p now t).1 = true → (is_duplicate_call c p now t).2 = t) ∧
      ((is_duplicate_call c p now t).1 = false →
        tget (is_duplicate_call c p now t).2 (call_fingerprint c) = some now) ∧
      (0 < now → ∀ kv ∈ (is_duplicate_call c p now t).2, 0 < kv.2)) ∧
    (∀ (c : ToolCall) (p : Policy) (t0 : Table) (n1 d : ℚ),
      p.duplicate_window_seconds = some 300 →
      tget t0 (call_fingerprint c) = none → 0 < n1 → 0 ≤ d → d ≤ 299 →
      (is_duplicate_call c p n1 t0).1 = false ∧
      (is_duplicate_call c p (n1 + d) (is_duplicate_call c p n1 t0).2).1 = true ∧
      (is_duplicate_call c p (n1 + d + 301)
        (is_duplicate_call c p (n1 + d) (is_duplicate_call c p n1 t0).2).2).1 = false) := by
  constructor
  · intro c p now t ht hw
    cases hr : dupRead t (call_fingerprint c) now (p.duplicate_window_seconds.getD 300) with
    | true =>
      have hres : is_duplicate_call c p now t = (true, t) := by
        simp [is_duplicate_call, hr]
      refine ⟨?_, ?_, ?_, ?_⟩
      · rw [hres]
        simp only [true_iff]
        cases hl : tget t (call_fingerprint c) with
        | none => simp [dupRead, hl] at hr
        | some last =>
          refine ⟨last, rfl, ?_⟩
          simp only [dupRead, hl, decide_eq_true_eq] at hr
          exact hr.2
      · intro _; rw [hres]
      · intro hfalse; rw [hres] at hfalse; simp at hfalse
      · intro _; rw [hres]; exact ht
    | false =>
      have hres : is_duplicate_call c p now t =
          (false, dupCommit t (call_fingerprint c) now (p.duplicate_window_seconds.getD 300)) := by
        simp [is_duplicate_call, hr]
      refine ⟨?_, ?_, ?_, ?_⟩
      · rw [hres]
        simp only [Bool.false_eq_true, false_iff]
        rintro ⟨last, hl, hlt⟩
        have hpos : 0 < last := ht (call_fingerprint c, last) (tget_mem _ _ _ hl)
        simp only [dupRead, hl, decide_eq_false_iff_not, not_and, not_lt] at hr
        have := hr (ne_of_gt hpos)
        linarith
      · intro htrue; rw [hres] at htrue; simp at htrue
      · intro _; rw [hres]
        exact tget_dupCommit_self t (call_fingerprint c) now _ hw
      · intro hn; rw [hres]
        exact dupCommit_pos t (call_fingerprint c) now _ ht hn
  · intro c p t0 n1 d hp h0 hn1 hd0 hd299
    have hw : p.duplicate_window_seconds.getD 300 = 300 := by rw [hp]; rfl
    have hr1 : dupRead t0 (call_fingerprint c) n1 300 = false := by
      simp [dupRead, h0]
    have hres1 : is_duplicate_call c p n1 t0 =
        (false, dupCommit t0 (call_fingerprint c) n1 300) := by
      rw [is_duplicate_call_eq, hw, hr1]
      rfl
    have ht1 : tget (dupCommit t0 (call_fingerprint c) n1 300) (call_fingerprint c)
        = some n1 :=
      tget_dupCommit_self t0 (call_fingerprint c) n1 300 (by norm_num)
    have hr2 : dupRead (dupCommit t0 (call_fingerprint c) n1 300) (call_fingerprint c)
        (n1 + d) 300 = true := by
      simp only [dupRead, ht1, decide_eq_true_eq]
      exact ⟨ne_of_gt hn1, by linarith⟩
    have hres2 : is_duplicate_call c p (n1 + d) (dupCommit t0 (call_fingerprint c) n1 300) =
        (true, dupCommit t0 (call_fingerprint c) n1 300) := by
      rw [is_duplicate_call_eq, hw, hr2]
      rfl
    have hr3 : dupRead (dupCommit t0 (call_fingerprint c) n1 300) (call_fingerprint c)
        (n1 + d + 301) 300 = false := by
      simp only [dupRead, ht1, decide_eq_false_iff_not, not_and, not_lt]
      intro _
      linarith
    refine ⟨by rw [hres1], ?_, ?_⟩
    · rw [hres1]
      rw [show ((false, dupCommit t0 (call_fingerprint c) n1 300) : Bool × Table).2
          = dupCommit t0 (call_fingerprint c) n1 300 from rfl, hres2]
    · rw [hres1]
      rw [show ((false, dupCommit t0 (call_fingerprint c) n1 300) : Bool × Table).2
          = dupCommit t0 (call_fingerprint c) n1 300 from rfl, hres2]
      rw [show ((true, dupCommit t0 (call_fingerprint c) n1 300) : Bool × Table).2
          = dupCommit t0 (call_fingerprint c) n1 300 from rfl]
      rw [is_duplicate_call_eq, hw, hr3]
      rfl

/-- Witness for C2: the three-submission scenario at concrete times 1000,
1299 and 1600 under the fallback policy. -/
theorem duplicate_window_semantics_witness :
    (is_duplicate_call ⟨some "A", none⟩ fallbackPolicy 1000 []).1 = false ∧
    (is_duplicate_call ⟨some "A", none⟩ fallbackPolicy 1299
      (is_duplicate_call ⟨some "A", none⟩ fallbackPolicy 1000 []).2).1 = true ∧
    (is_duplicate_call ⟨some "A", none⟩ fallbackPolicy 1600
      (is_duplicate_call ⟨some "A", none⟩ fallbackPolicy 1299
        (is_duplicate_call ⟨some "A", none⟩ fallbackPolicy 1000 []).2).2).1 = false := by
  have h := duplicate_window_semantics.2 ⟨some "A", none⟩ fallbackPolicy [] 1000 299
    rfl rfl (by norm_num) (by norm_num) (by norm_num)
  norm_num at h
  exact h

/-- C3: a call denied for malformed shape, role permission, or phase
gating leaves the duplicate table unchanged (its fingerprint is not
recorded), whereas a call that passes the duplicate stage and is then
denied for intent misalignment has already had its fingerprint and
timestamp recorded. -/
theorem stage_ordering_table_effects (config : Option CfgVal) (c : ToolCall)
    (msgs : Option (List Msg)) (phase : String) (p : Policy) (t : Table) (now : ℚ) :
    (validate_tool_call config none msgs phase p t now =
      .ok ((false, "Malformed tool_call"), t)) ∧
    (c.nameKey = none →
      validate_tool_call config (some c) msgs phase p t now =
        .ok ((false, "Malformed tool_call"), t)) ∧
    (∀ name r, c.nameKey = some name →
      roleStr (get_role_from_config config p) = .ok r →
      is_tool_allowed_for_role r name p = false →
      validate_tool_call config (some c) msgs phase p t now =
        .ok ((false, "Tool '" ++ name ++ "' not allowed for role '" ++ r ++ "'"), t)) ∧
    (∀ name r, c.nameKey = some name →
      roleStr (get_role_from_config config p) = .ok r →
      is_tool_allowed_for_role r name p = true → phase = "clarify" →
      validate_tool_call config (some c) msgs phase p t now =
        .ok ((false, "Tools prohibited during clarification phase"), t)) ∧
    (∀ name r, c.nameKey = some name →
      roleStr (get_role_from_config config p) = .ok r →
      is_tool_allowed_for_role r name p = true → phase = "research" →
      name ≠ "ConductResearch" → name ≠ "ResearchComplete" →
      validate_tool_call config (some c) msgs phase p t now =
        .ok ((false, "Tool '" ++ name ++ "' not allowed during research orchestration"), t)) ∧
    (∀ name r, c.nameKey = some name →
      roleStr (get_role_from_config config p) = .ok r →
      is_tool_allowed_for_role r name p = true →
      phase ≠ "clarify" →
      (phase = "research" → name = "ConductResearch" ∨ name = "ResearchComplete") →
      dupRead t (call_fingerprint c) now (p.duplicate_window_seconds.getD 300) = false →
      alignmentFlags msgs c.argsD = true →
      0 ≤ p.duplicate_window_seconds.getD 300 →
      validate_tool_call config (some c) msgs phase p t now =
        .ok ((false, "Tool call appears unrelated to user intent"),
          dupCommit t (call_fingerprint c) now (p.duplicate_window_seconds.getD 300)) ∧
      tget (dupCommit t (call_fingerprint c) now (p.duplicate_window_seconds.getD 300))
        (call_fingerprint c) = some now) := by
  refine ⟨rfl, ?_, ?_, ?_, ?_, ?_⟩
  · intro hn
    simp [validate_tool_call, hn]
  · intro name r hn hrs ha
    simp [validate_tool_call, hn, hrs, ha]
  · intro name r hn hrs ha hph
    subst hph
    simp [validate_tool_call, hn, hrs, ha]
  · intro name r hn hrs ha hph h1 h2
    subst hph
    have hb1 : (name == "ConductResearch") = false := by simpa using h1
    have hb2 : (name == "ResearchComplete") = false := by simpa using h2
    simp [validate_tool_call, hn, hrs, ha, hb1, hb2]
  · intro name r hn hrs ha hpc hpr hdup halign hw
    have hb : (phase == "clarify") = false := by simpa using hpc
    refine ⟨?_, tget_dupCommit_self t (call_fingerprint c) now _ hw⟩
    have hcond : (phase == "research"
        && !(name == "ConductResearch" || name == "ResearchComplete")) = false := by
      by_cases hre : phase = "research"
      · rcases hpr hre with h | h
        · subst h; simp [hre]
        · subst h; simp [hre]
      · have : (phase == "research") = false := by simpa using hre
        simp [this]
    simp only [validate_tool_call, hn, hrs, ha, Bool.not_true, Bool.false_eq_true, if_false,
      hb, hcond, is_duplicate_call_eq, hdup, halign, if_true]

/-- Witness for C3: a role-permitted `ConductResearch` call with args
unrelated to the conversation is denied for intent misalignment, and its
fingerprint has been recorded with the submission time. -/
theorem stage_ordering_table_effects_witness :
    validate_tool_call none
      (some ⟨some "ConductResearch", some (.jobj [("target", .js "delete_all_records")])⟩)
      (some [⟨some "Summarize this document"⟩]) "research"
      ⟨[("researcher", ["*"])], some "researcher", some 300⟩ [] 1 =
      .ok ((false, "Tool call appears unrelated to user intent"),
        [("ConductResearch:\x7b\"target\": \"delete_all_records\"\x7d", 1)]) := by
  have h := (stage_ordering_table_effects none
    ⟨some "ConductResearch", some (.jobj [("target", .js "delete_all_records")])⟩
    (some [⟨some "Summarize this document"⟩]) "research"
    ⟨[("researcher", ["*"])], some "researcher", some 300⟩ [] 1).2.2.2.2.2
    "ConductResearch" "researcher" rfl rfl rfl (by decide)
    (fun _ => Or.inl rfl) rfl (by decide) (by norm_num)
  rw [h.1]
  rfl

/-- C7: the intent-alignment stage flags a call as unaligned exactly when
both token sets (whitespace-split, case-folded tokens longer than 3
characters, from the joined message contents and from the serialized args)
are non-empty and disjoint; with no messages (or an empty message list, or
an empty token set on either side) the call is treated as aligned.  When
every earlier stage passes, the flag alone decides the outcome.  The
weather/Paris example is aligned; the summarize/delete example is flagged
unaligned. -/
theorem intent_alignment_characterization :
    (∀ args, alignmentFlags none args = false) ∧
    (∀ args, alignmentFlags (some []) args = false) ∧
    (∀ ms args, ms ≠ [] →
      (alignmentFlags (some ms) args = true ↔
        (tokensOf (contentJoin ms) ≠ [] ∧ tokensOf (dumpsRaw args) ≠ [] ∧
          ∀ u ∈ tokensOf (contentJoin ms), u ∉ tokensOf (dumpsRaw args)))) ∧
    (∀ (config : Option CfgVal) (c : ToolCall) (msgs : Option (List Msg)) (phase : String)
        (p : Policy) (t : Table) (now : ℚ) (name r : String),
      c.nameKey = some name →
      roleStr (get_role_from_config config p) = .ok r →
      is_tool_allowed_for_role r name p = true →
      phase ≠ "clarify" →
      (phase = "research" → name = "ConductResearch" ∨ name = "ResearchComplete") →
      dupRead t (call_fingerprint c) now (p.duplicate_window_seconds.getD 300) = false →
      validate_tool_call config (some c) msgs phase p t now =
        .ok ((if alignmentFlags msgs c.argsD then
                (false, "Tool call appears unrelated to user intent")
              else (true, "allowed")),
          dupCommit t (call_fingerprint c) now (p.duplicate_window_seconds.getD 300))) ∧
    (alignmentFlags (some [⟨some "What is the weather in Paris today"⟩])
      (.jobj [("query", .js "weather Paris forecast")]) = false) ∧
    (alignmentFlags (some [⟨some "Summarize this document"⟩])
      (.jobj [("target", .js "delete_all_records")]) = true) := by
  refine ⟨fun args => rfl, fun args => rfl, ?_, ?_, by decide, by decide⟩
  · intro ms args hms
    have hne : ms.isEmpty = false := by simpa [List.isEmpty_iff] using hms
    have hie : ∀ l : List String, l.isEmpty = false ↔ l ≠ [] := by
      intro l; cases l <;> simp
    simp only [alignmentFlags, hne, Bool.false_eq_true, if_false,
      Bool.and_eq_true, Bool.not_eq_true', List.all_eq_true, Bool.not_eq_true, hie]
    constructor
    · rintro ⟨⟨h1, h2⟩, h3⟩
      refine ⟨h1, h2, fun u hu => ?_⟩
      have := h3 u hu
      simpa [List.elem_iff] using this
    · rintro ⟨h1, h2, h3⟩
      refine ⟨⟨h1, h2⟩, fun u hu => ?_⟩
      have := h3 u hu
      simpa [List.elem_iff] using this
  · intro config c msgs phase p t now name r hn hrs ha hpc hpr hdup
    have hb : (phase == "clarify") = false := by simpa using hpc
    have hcond : (phase == "research"
        && !(name == "ConductResearch" || name == "ResearchComplete")) = false := by
      by_cases hre : phase = "research"
      · rcases hpr hre with h | h
        · subst h; simp [hre]
        · subst h; simp [hre]
      · have : (phase == "research") = false := by simpa using hre
        simp [this]
    cases hal : alignmentFlags msgs c.argsD with
    | true =>
      simp only [validate_tool_call, hn, hrs, ha, Bool.not_true, Bool.false_eq_true, if_false,
        hb, hcond, is_duplicate_call_eq, hdup, hal, if_true]
    | false =>
      simp only [validate_tool_call, hn, hrs, ha, Bool.not_true, Bool.false_eq_true, if_false,
        hb, hcond, is_duplicate_call_eq, hdup, hal, if_true]

/-- Witness for C7: end to end, a `ConductResearch` call whose args share
the tokens "weather" and "paris" with the user's question is allowed, and
the fingerprint is recorded. -/
theorem intent_alignment_characterization_witness :
    validate_tool_call none
      (some ⟨some "ConductResearch", some (.jobj [("query", .js "weather Paris forecast")])⟩)
      (some [⟨some "What is the weather in Paris today"⟩]) "research"
      ⟨[("researcher", ["*"])], some "researcher", some 300⟩ [] 1 =
      .ok ((true, "allowed"),
        [("ConductResearch:\x7b\"query\": \"weather Paris forecast\"\x7d", 1)]) := by
  have h := intent_alignment_characterization.2.2.2.1 none
    ⟨some "ConductResearch", some (.jobj [("query", .js "weather Paris forecast")])⟩
    (some [⟨some "What is the weather in Paris today"⟩]) "research"
    ⟨[("researcher", ["*"])], some "researcher", some 300⟩ [] 1
    "ConductResearch" "researcher" rfl rfl rfl (by decide) (fun _ => Or.inl rfl) rfl
  rw [h]
  have hal : alignmentFlags (some [⟨some "What is the weather in Paris today"⟩])
      (ToolCall.argsD ⟨some "ConductResearch",
        some (.jobj [("query", .js "weather Paris forecast")])⟩) = false := by decide
  rw [hal]
  rfl

/-- C9: the duplicate check is a check-then-set of two separate steps on
the shared table, with no lock: `is_duplicate_call` is exactly a
`dupRead` followed (when the read found nothing) by a `dupCommit`.  Run
sequentially, a second submission of the same fingerprint one second
later is reported duplicate; but under the interleaving the unprotected
dict permits (both reads before either write), two concurrent submissions
of the same fingerprint within the window are BOTH reported
not-duplicate, violating the at-most-one-pass-through guarantee. -/
theorem duplicate_check_not_atomic :
    (∀ (c : ToolCall) (p : Policy) (now : ℚ) (t : Table),
      is_duplicate_call c p now t =
        if dupRead t (call_fingerprint c) now (p.duplicate_window_seconds.getD 300) then
          (true, t)
        else
          (false, dupCommit t (call_fingerprint c) now
            (p.duplicate_window_seconds.getD 300))) ∧
    ((is_duplicate_call ⟨some "T", none⟩ fallbackPolicy 1000 []).1 = false ∧
      (is_duplicate_call ⟨some "T", none⟩ fallbackPolicy 1001
        (is_duplicate_call ⟨some "T", none⟩ fallbackPolicy 1000 []).2).1 = true) ∧
    racedDuplicateCheck [] (call_fingerprint ⟨some "T", none⟩) 1000 1001 300 =
      (false, false, [(call_fingerprint ⟨some "T", none⟩, 1001)]) := by
  have hfp : ∀ now w, dupCommit [] (call_fingerprint ⟨some "T", none⟩) now w =
      [(call_fingerprint ⟨some "T", none⟩, now)] := by
    intro now w
    simp [dupCommit, tset]
  have hread0 : ∀ now w, dupRead [] (call_fingerprint ⟨some "T", none⟩) now w = false := by
    intro now w
    simp [dupRead, tget, List.lookup]
  have hread1 : dupRead [(call_fingerprint ⟨some "T", none⟩, 1000)]
      (call_fingerprint ⟨some "T", none⟩) 1001 300 = true := by
    simp only [dupRead, tget, List.lookup, beq_self_eq_true, decide_eq_true_eq]
    norm_num
  refine ⟨fun c p now t => rfl, ⟨?_, ?_⟩, ?_⟩
  · rw [is_duplicate_call_eq, hread0]
    rfl
  · have hres1 : is_duplicate_call ⟨some "T", none⟩ fallbackPolicy 1000 [] =
        (false, [(call_fingerprint ⟨some "T", none⟩, 1000)]) := by
      rw [is_duplicate_call_eq, hread0]
      simp [hfp]
    rw [hres1]
    rw [show ((false, [(call_fingerprint ⟨some "T", none⟩, 1000)]) : Bool × Table).2 =
      [(call_fingerprint ⟨some "T", none⟩, 1000)] from rfl]
    rw [is_duplicate_call_eq]
    rw [show fallbackPolicy.duplicate_window_seconds.getD 300 = 300 from rfl]
    rw [hread1]
    rfl
  · unfold racedDuplicateCheck
    rw [hread0, hread0]
    simp only [Bool.false_eq_true, if_false, hfp]
    rw [show dupCommit [(call_fingerprint ⟨some "T", none⟩, 1000)]
        (call_fingerprint ⟨some "T", none⟩) 1001 300 =
        [(call_fingerprint ⟨some "T", none⟩, 1001)] by simp [dupCommit, tset]]

theorem dumpsPairs_eq_map (l : List (String × Json)) : dumpsPairs l = l.map pairOf := by
  induction l with
  | nil => rfl
  | cons hd rest ih =>
    obtain ⟨k, v⟩ := hd
    simp [dumpsPairs, pairOf, ih]

theorem fst_dumpsPairs (l : List (String × Json)) :
    (dumpsPairs l).map Prod.fst = l.map Prod.fst := by
  induction l with
  | nil => rfl
  | cons hd rest ih =>
    obtain ⟨k, v⟩ := hd
    simp [dumpsPairs, ih]

theorem sort_pairs_eq (m1 m2 : List (String × String)) (hperm : m1.Perm m2)
    (hnd : (m1.map Prod.fst).Nodup) :
    List.insertionSort keyLe2 m1 = List.insertionSort keyLe2 m2 := by
  haveI : IsAntisymm (String × String) (fun a b : String × String => a.1 < b.1) :=
    ⟨fun a b h1 h2 => (lt_asymm h1 h2).elim⟩
  have hp1 : (List.insertionSort keyLe2 m1).Perm m1 := List.perm_insertionSort keyLe2 m1
  have hp2 : (List.insertionSort keyLe2 m2).Perm m2 := List.perm_insertionSort keyLe2 m2
  have hp : (List.insertionSort keyLe2 m1).Perm (List.insertionSort keyLe2 m2) :=
    (hp1.trans hperm).trans hp2.symm
  have hs1 : (List.insertionSort keyLe2 m1).Sorted keyLe2 :=
    List.sorted_insertionSort keyLe2 m1
  have hs2 : (List.insertionSort keyLe2 m2).Sorted keyLe2 :=
    List.sorted_insertionSort keyLe2 m2
  have hnd1 : ((List.insertionSort keyLe2 m1).map Prod.fst).Nodup :=
    (hp1.map Prod.fst).symm.nodup hnd
  have hnd2 : ((List.insertionSort keyLe2 m2).map Prod.fst).Nodup := by
    have hnd' : (m2.map Prod.fst).Nodup := (hperm.map Prod.fst).nodup hnd
    exact (hp2.map Prod.fst).symm.nodup hnd'
  have hne1 : (List.insertionSort keyLe2 m1).Pairwise (fun a b => a.1 ≠ b.1) :=
    List.pairwise_map.mp hnd1
  have hne2 : (List.insertionSort keyLe2 m2).Pairwise (fun a b => a.1 ≠ b.1) :=
    List.pairwise_map.mp hnd2
  have hlt1 : (List.insertionSort keyLe2 m1).Pairwise (fun a b : String × String => a.1 < b.1) :=
    (hs1.and hne1).imp fun h => lt_of_le_of_ne h.1 h.2
  have hlt2 : (List.insertionSort keyLe2 m2).Pairwise (fun a b : String × String => a.1 < b.1) :=
    (hs2.and hne2).imp fun h => lt_of_le_of_ne h.1 h.2
  exact List.eq_of_perm_of_sorted hp hlt1 hlt2

mutual
theorem semEq_dumps : ∀ {a b : Json}, SemEq a b → WFJson a → WFJson b → dumps a = dumps b
  | _, _, .null, _, _ => rfl
  | _, _, .jb b0, _, _ => rfl
  | _, _, .jn n, _, _ => rfl
  | _, _, .js s, _, _ => rfl
  | _, _, .jarr hl, ha, hb => by
    cases ha with | jarr hwa =>
    cases hb with | jarr hwb =>
    have hls := semEqList_dumps hl hwa hwb
    simp only [dumps, hls]
  | _, _, .jobj l2mid h1 hperm, ha, hb => by
    cases ha with | jobj hnd1 hw1 =>
    cases hb with | jobj hnd2 hw2 =>
    have hw2mid : ∀ e ∈ l2mid, WFJson e.2 := fun e he => hw2 e (hperm.subset he)
    have hpairs := semEqEntries_pairs h1 hw1 hw2mid
    rename_i l1 l2
    have hpp : (dumpsPairs l2mid).Perm (dumpsPairs l2) := by
      rw [dumpsPairs_eq_map, dumpsPairs_eq_map]
      exact hperm.map pairOf
    have hperm2 : (dumpsPairs l1).Perm (dumpsPairs l2) := hpairs ▸ hpp
    have hnd1' : ((dumpsPairs l1).map Prod.fst).Nodup := by
      rw [fst_dumpsPairs]; exact hnd1
    have hsort := sort_pairs_eq (dumpsPairs l1) (dumpsPairs l2) hperm2 hnd1'
    simp only [dumps, hsort]

theorem semEqList_dumps : ∀ {xs ys : List Json}, SemEqList xs ys →
    (∀ x ∈ xs, WFJson x) → (∀ y ∈ ys, WFJson y) → dumpsList xs = dumpsList ys
  | _, _, .nil, _, _ => rfl
  | _, _, .cons hxy hrest, ha, hb => by
    have h1 := semEq_dumps hxy (ha _ (List.mem_cons_self _ _)) (hb _ (List.mem_cons_self _ _))
    have h2 := semEqList_dumps hrest (fun x hx => ha x (List.mem_cons_of_mem _ hx))
      (fun y hy => hb y (List.mem_cons_of_mem _ hy))
    simp only [dumpsList, h1, h2]

theorem semEqEntries_pairs : ∀ {l1 l2 : List (String × Json)}, SemEqEntries l1 l2 →
    (∀ e ∈ l1, WFJson e.2) → (∀ e ∈ l2, WFJson e.2) → dumpsPairs l1 = dumpsPairs l2
  | _, _, .nil, _, _ => rfl
  | _, _, .cons hv hrest, ha, hb => by
    have h1 := semEq_dumps hv (ha _ (List.mem_cons_self _ _)) (hb _ (List.mem_cons_self _ _))
    have h2 := semEqEntries_pairs hrest (fun e he => ha e (List.mem_cons_of_mem _ he))
      (fun e he => hb e (List.mem_cons_of_mem _ he))
    simp only [dumpsPairs, h1, h2]
end

/-- C6: `_call_fingerprint` is deterministic (it is a function) and
argument-order-independent: two tool calls with the same `"name"` value
and semantically identical args — the same key/value pairs in any
insertion order, including inside nested mappings, with the distinct keys
a Python dict guarantees — have the same fingerprint string. -/
theorem fingerprint_order_independent (c1 c2 : ToolCall)
    (hname : c1.nameKey = c2.nameKey) (hsem : SemEq c1.argsD c2.argsD)
    (h1 : WFJson c1.argsD) (h2 : WFJson c2.argsD) :
    call_fingerprint c1 = call_fingerprint c2 := by
  unfold call_fingerprint
  rw [hname, semEq_dumps hsem h1 h2]

/-- Witness for C6: `{name:"A", args:{x:1, y:2}}` and
`{name:"A", args:{y:2, x:1}}` fingerprint identically. -/
theorem fingerprint_order_independent_witness :
    call_fingerprint ⟨some "A", some (.jobj [("x", .jn 1), ("y", .jn 2)])⟩ =
      call_fingerprint ⟨some "A", some (.jobj [("y", .jn 2), ("x", .jn 1)])⟩ :=
  fingerprint_order_independent
    ⟨some "A", some (.jobj [("x", .jn 1), ("y", .jn 2)])⟩
    ⟨some "A", some (.jobj [("y", .jn 2), ("x", .jn 1)])⟩
    rfl
    (SemEq.jobj [("x", .jn 1), ("y", .jn 2)]
      (SemEqEntries.cons (SemEq.jn 1) (SemEqEntries.cons (SemEq.jn 2) SemEqEntries.nil))
      (List.Perm.swap ("y", Json.jn 2) ("x", Json.jn 1) []))
    (WFJson.jobj (by decide) (by
      intro e he
      rcases List.mem_cons.mp he with rfl | he2
      · exact WFJson.jn 1
      · rcases List.mem_cons.mp he2 with rfl | he3
        · exact WFJson.jn 2
        · cases he3))
    (WFJson.jobj (by decide) (by
      intro e he
      rcases List.mem_cons.mp he with rfl | he2
      · exact WFJson.jn 2
      · rcases List.mem_cons.mp he2 with rfl | he3
        · exact WFJson.jn 1
        · cases he3))
